import Mathlib

/-!
Shallow embedding of the `thread_utils::JobPool` worker pool
(`src/include/job_pool.h`, `src/src/job_pool.cc`) and of the
`DnsResolver` helper (`src/include/dns_resolver.h`), as a labelled
transition system over an explicit pool state.

Modelling granularity. Every region of the C++ code executed while
holding `queue_mutex_` is one atomic step; every access to an atomic
field (`stop_flag_`, `paused_`, `active_jobs_`) outside the mutex is its
own step, linearised between the locked regions.  Concretely the worker
loop of `JobPool::WorkerThread` decomposes into

  * `tryDequeue` — the locked region: the `condition_.wait` predicate
    `stop_flag_ || !jobs_.empty() || !paused_`, the stop / paused /
    empty checks, and the `jobs_.front(); jobs_.pop()` pair;
  * `startJob` — the `active_jobs_++` executed after the lock has been
    released, entering the job body;
  * `finishJob` — the job body returning or throwing, the
    `catch (...) { last_exception_ = std::current_exception(); }`
    recording, and `active_jobs_--`.

`AddJob`, `Pause` (`paused_.store(true)`), `Resume`
(`paused_.store(false)`), and the destructor's `stop_flag_.store(true)`
are one step each.  `condition_variable::wait(lock, pred)` returns
exactly when `pred` holds at a predicate check, and the C++ standard
allows spurious wakeups, so a blocked thread's step is modelled as
enabled whenever its predicate holds.

`WaitForAllJobs` blocks on the predicate `jobs_.empty() &&
active_jobs_.load() == 0` (`drained` below) and then rethrows
`last_exception_` if one is stored (`waitOutcome` below).

Ghost history fields (`enqueuedIds`, `dequeuedIds`, `finishedIds`,
`failures`) record the event orders; they influence no transition.
-/

namespace JobPoolModel

/-- A job submitted to the pool: an identifier for bookkeeping plus
whether its body throws when executed (the only observable behaviour of
an opaque `std::function<void()>` body that the pool itself reacts to). -/
structure Job where
  id : Nat
  throws : Bool
deriving DecidableEq, Repr

/-- The control state of one worker thread inside `JobPool::WorkerThread`:
waiting at the condition variable (`idle`), having popped a job but not
yet executed `active_jobs_++` (`dequeued`), executing the job body after
the increment (`running`), or returned from the loop (`exited`). -/
inductive WorkerState where
  | idle : WorkerState
  | dequeued : Job → WorkerState
  | running : Job → WorkerState
  | exited : WorkerState
deriving DecidableEq, Repr

/-- The shared state of a `JobPool` object together with ghost history
fields.  `workers` has one entry per thread spawned by the constructor;
`queue` is `jobs_`; `active` is `active_jobs_`; `stop` is `stop_flag_`;
`paused` is `paused_`; `lastError` is `last_exception_` (represented by
the id of the job whose exception is stored). -/
structure PoolState where
  workers : List WorkerState
  queue : List Job
  active : Nat
  stop : Bool
  paused : Bool
  lastError : Option Nat
  enqueuedIds : List Nat
  dequeuedIds : List Nat
  finishedIds : List Nat
  failures : List Nat
deriving DecidableEq, Repr

/-- Transition labels: pool-API calls and the worker-loop steps. -/
inductive Label where
  | addJob : Job → Label
  | tryDequeue : Nat → Label
  | startJob : Nat → Label
  | finishJob : Nat → Label
  | pause : Label
  | resume : Label
  | setStop : Label
deriving DecidableEq, Repr

/-- `JobPool::AddJob`: under the lock, `jobs_.emplace(job)`; never
gated on `paused_` or `stop_flag_`. -/
def doAddJob (s : PoolState) (j : Job) : Option PoolState :=
  some { s with queue := s.queue ++ [j], enqueuedIds := s.enqueuedIds ++ [j.id] }

/-- The locked region of `JobPool::WorkerThread` for worker `w`:
the wait predicate is `stop_flag_ || !jobs_.empty() || !paused_`; once
it holds the worker checks `stop_flag_` (returns), then `paused_`
(continues), then emptiness (continues), else pops the front job.
A blocked configuration (predicate false: not stopping, queue empty,
paused) yields no step (`none`). -/
def doTryDequeue (s : PoolState) (w : Nat) : Option PoolState :=
  match s.workers[w]? with
  | some WorkerState.idle =>
    if s.stop then
      some { s with workers := s.workers.set w WorkerState.exited }
    else if s.paused then
      if s.queue.isEmpty then none else some s
    else
      match s.queue with
      | [] => some s
      | j :: rest =>
        some { s with workers := s.workers.set w (WorkerState.dequeued j),
                      queue := rest,
                      dequeuedIds := s.dequeuedIds ++ [j.id] }
  | _ => none

/-- `active_jobs_++` followed by entry into `job()`: executed by worker
`w` after the queue lock has been released. -/
def doStartJob (s : PoolState) (w : Nat) : Option PoolState :=
  match s.workers[w]? with
  | some (WorkerState.dequeued j) =>
    some { s with workers := s.workers.set w (WorkerState.running j),
                  active := s.active + 1 }
  | _ => none

/-- The job body returning (or throwing, caught by `catch (...)`, which
stores `last_exception_`), followed by `active_jobs_--` and
`condition_.notify_all()`; the worker goes back to the top of the loop. -/
def doFinishJob (s : PoolState) (w : Nat) : Option PoolState :=
  match s.workers[w]? with
  | some (WorkerState.running j) =>
    some { s with workers := s.workers.set w WorkerState.idle,
                  active := s.active - 1,
                  finishedIds := s.finishedIds ++ [j.id],
                  lastError := if j.throws then some j.id else s.lastError,
                  failures := if j.throws then s.failures ++ [j.id] else s.failures }
  | _ => none

/-- One transition of the pool. -/
def applyLabel (s : PoolState) : Label → Option PoolState
  | Label.addJob j => doAddJob s j
  | Label.tryDequeue w => doTryDequeue s w
  | Label.startJob w => doStartJob s w
  | Label.finishJob w => doFinishJob s w
  | Label.pause => some { s with paused := true }
  | Label.resume => some { s with paused := false }
  | Label.setStop => some { s with stop := true }

/-- The state right after `JobPool::JobPool(k)`: `k` workers in the
loop, empty queue, no active jobs, flags clear, no stored exception. -/
def init (k : Nat) : PoolState :=
  { workers := List.replicate k WorkerState.idle
    queue := []
    active := 0
    stop := false
    paused := false
    lastError := none
    enqueuedIds := []
    dequeuedIds := []
    finishedIds := []
    failures := [] }

/-- One step of the transition system (some label applies). -/
def stepRel (s t : PoolState) : Prop := ∃ l, applyLabel s l = some t

/-- Finitely many steps. -/
def Steps : PoolState → PoolState → Prop := Relation.ReflTransGen stepRel

/-- Reachability from the freshly constructed `k`-worker pool. -/
def Reachable (k : Nat) (s : PoolState) : Prop := Steps (init k) s

/-- Run a concrete schedule of labels. -/
def runTrace (ls : List Label) (s : PoolState) : Option PoolState :=
  match ls with
  | [] => some s
  | l :: rest =>
    match applyLabel s l with
    | some t => runTrace rest t
    | none => none

/-- The unblocking predicate of `JobPool::WaitForAllJobs`:
`jobs_.empty() && active_jobs_.load() == 0`. -/
def drained (s : PoolState) : Prop := s.queue = [] ∧ s.active = 0

instance (s : PoolState) : Decidable (drained s) := by
  unfold drained; infer_instance

/-- What a caller unblocking from `WaitForAllJobs` in state `s`
receives: `some e` means `std::rethrow_exception(last_exception_)`
raises the failure of job `e`; `none` means a normal return. -/
def waitOutcome (s : PoolState) : Option Nat := s.lastError

/-- A worker currently holding a job (popped from the queue and not yet
finished). -/
def isHeld : WorkerState → Bool
  | WorkerState.dequeued _ => true
  | WorkerState.running _ => true
  | _ => false

/-- Number of jobs simultaneously dequeued-and-executing. -/
def heldCount (s : PoolState) : Nat := (s.workers.filter isHeld).length

/-- Every worker thread has returned from `WorkerThread` (so the
destructor's `thread.join()` calls all return). -/
def allExited (s : PoolState) : Prop :=
  ∀ st ∈ s.workers, st = WorkerState.exited

/-- The destructor `JobPool::~JobPool` returns exactly when the stop
flag has been stored and every spawned thread has been joined. -/
def teardownComplete (s : PoolState) : Prop := s.stop = true ∧ allExited s

/-- A job with id 0 whose body returns normally. -/
def j0 : Job := { id := 0, throws := false }

/-- A job with id 1 whose body returns normally. -/
def j1 : Job := { id := 1, throws := false }

/-- A job with id 0 whose body throws. -/
def f0 : Job := { id := 0, throws := true }

/-- Schedule on a 2-worker pool: jobs 0 and 1 are submitted, worker 0
dequeues and fully executes job 0 (its final `notify_all` may wake a
thread blocked in `WaitForAllJobs`), and worker 1 pops job 1 but has not
yet executed `active_jobs_++`.  Now `jobs_.empty()` holds and
`active_jobs_ == 0`. -/
def dequeueWindowTrace : List Label :=
  [Label.addJob j0, Label.addJob j1, Label.tryDequeue 0, Label.startJob 0,
   Label.finishJob 0, Label.tryDequeue 1]

/-- Schedule on a 1-worker pool: job 0 is submitted, the worker pops it
and releases the lock, then `Pause()` stores `paused_ = true` before the
worker reaches `active_jobs_++`. -/
def pauseWindowTrace : List Label :=
  [Label.addJob j0, Label.tryDequeue 0, Label.pause]

/-- Schedule on a 1-worker pool: a throwing job followed by a normal
job, both executed to completion by the single worker. -/
def failIsolationTrace : List Label :=
  [Label.addJob f0, Label.addJob j1, Label.tryDequeue 0, Label.startJob 0,
   Label.finishJob 0, Label.tryDequeue 0, Label.startJob 0, Label.finishJob 0]

/-- Schedule on a 2-worker pool: jobs 0 and 1 are dequeued in FIFO
order by workers 0 and 1, but worker 1 finishes first. -/
def completionInversionTrace : List Label :=
  [Label.addJob j0, Label.addJob j1, Label.tryDequeue 0, Label.tryDequeue 1,
   Label.startJob 1, Label.finishJob 1, Label.startJob 0, Label.finishJob 0]

/-- Schedule on a 1-worker pool: a first submit/drain cycle whose only
job throws, then a second cycle whose only job succeeds. -/
def twoCycleTrace : List Label :=
  [Label.addJob f0, Label.tryDequeue 0, Label.startJob 0, Label.finishJob 0,
   Label.addJob j1, Label.tryDequeue 0, Label.startJob 0, Label.finishJob 0]

/-- Schedule on a 1-worker pool reaching a state whose single worker is
executing a throwing job. -/
def runningFailTrace : List Label :=
  [Label.addJob f0, Label.tryDequeue 0, Label.startJob 0]

/-- Schedule on a 1-worker pool: one throwing job runs to completion,
after which the pool is drained with a recorded failure. -/
def failDrainTrace : List Label :=
  [Label.addJob f0, Label.tryDequeue 0, Label.startJob 0, Label.finishJob 0]

/-- State of a 1-worker pool whose worker is idle at the condition
variable, with job 0 queued and the pause flag set (reached by
`AddJob(j0); Pause()`). -/
def pausedQueueState : PoolState :=
  { workers := [WorkerState.idle]
    queue := [j0]
    active := 0
    stop := false
    paused := true
    lastError := none
    enqueuedIds := [0]
    dequeuedIds := []
    finishedIds := []
    failures := [] }

/-- State of a 1-worker pool whose worker is executing the throwing job
`f0` (the final state of `runningFailTrace`). -/
def heldWitnessState : PoolState :=
  { workers := [WorkerState.running f0]
    queue := []
    active := 1
    stop := false
    paused := false
    lastError := none
    enqueuedIds := [0]
    dequeuedIds := [0]
    finishedIds := []
    failures := [] }

/-- State of a 1-worker pool after the throwing job `f0` has run to
completion: drained, with its failure recorded (the final state of
`failDrainTrace`). -/
def failDrainState : PoolState :=
  { workers := [WorkerState.idle]
    queue := []
    active := 0
    stop := false
    paused := false
    lastError := some 0
    enqueuedIds := [0]
    dequeuedIds := [0]
    finishedIds := [0]
    failures := [0] }

/-- State of a 1-worker pool at teardown time: the destructor has
stored the stop flag while job 0 is still queued and the worker idle. -/
def stoppedState : PoolState :=
  { workers := [WorkerState.idle]
    queue := [j0]
    active := 0
    stop := true
    paused := false
    lastError := none
    enqueuedIds := [0]
    dequeuedIds := []
    finishedIds := []
    failures := [] }

/-- Schedule on a 2-worker pool: two jobs submitted, the first already
dequeued by worker 0, the second still queued. -/
def fifoWitnessTrace : List Label :=
  [Label.addJob j0, Label.addJob j1, Label.tryDequeue 0]

/-- The final state of `fifoWitnessTrace`. -/
def fifoWitnessState : PoolState :=
  { workers := [WorkerState.dequeued j0, WorkerState.idle]
    queue := [j1]
    active := 0
    stop := false
    paused := false
    lastError := none
    enqueuedIds := [0, 1]
    dequeuedIds := [0]
    finishedIds := []
    failures := [] }

/-- Outcome of the underlying `boost::asio` resolver call
`resolver_.resolve(hostname, "")` inside `DnsResolver::resolve`
(`src/include/dns_resolver.h`): either the list of resolved endpoint
address strings, or a thrown `boost::system::system_error` whose
`what()` is the given diagnostic. -/
inductive OsResolveResult where
  | ok : List String → OsResolveResult
  | err : String → OsResolveResult
deriving DecidableEq, Repr

/-- The body of the lambda run by `DnsResolver::resolve`: call the
resolver inside a `try`; if the result set is non-empty, return the
first endpoint's address string; if a `system_error` `e` is thrown,
return `"Error: "` followed by `e.what()`; otherwise fall through to
`"No results"`.  The OS/library resolver is abstracted as a function
from hostname to `OsResolveResult`. -/
def dnsResolve (osResolve : String → OsResolveResult) (hostname : String) : String :=
  match osResolve hostname with
  | OsResolveResult.ok (a :: _) => a
  | OsResolveResult.ok [] => "No results"
  | OsResolveResult.err e => "Error: " ++ e

/-- A concrete OS-resolver behaviour that throws a `system_error` for
every hostname. -/
def errResolver : String → OsResolveResult :=
  fun _ => OsResolveResult.err "Host not found"

/-- Weight of a worker control state, decreasing along the steps a
worker takes on its way out of the loop once the stop flag is set. -/
def wWeight : WorkerState → Nat
  | WorkerState.exited => 0
  | WorkerState.idle => 1
  | WorkerState.running _ => 2
  | WorkerState.dequeued _ => 3

/-- Total weight of a pool state. -/
def weight (s : PoolState) : Nat := (s.workers.map wWeight).sum

/-- Structural invariant of the pool, established at construction and
preserved by every transition: the worker count is fixed; the dequeue
history followed by the still-queued ids is exactly the enqueue history
(FIFO); a worker leaves its loop only when the stop flag is set; and
`last_exception_` holds exactly the most recently recorded failure. -/
def Inv (k : Nat) (s : PoolState) : Prop :=
  s.workers.length = k ∧
  s.dequeuedIds ++ s.queue.map Job.id = s.enqueuedIds ∧
  (∀ st ∈ s.workers, st = WorkerState.exited → s.stop = true) ∧
  s.lastError = s.failures.getLast?

theorem init_inv (k : Nat) : Inv k (init k) := by
  refine ⟨List.length_replicate k _, rfl, ?_, rfl⟩
  intro st hst hex
  rw [List.eq_of_mem_replicate hst] at hex
  cases hex

theorem applyLabel_inv {k : Nat} {s t : PoolState} {l : Label}
    (hInv : Inv k s) (h : applyLabel s l = some t) : Inv k t := by
  obtain ⟨hlen, hfifo, hex, herr⟩ := hInv
  cases l with
  | addJob j =>
    simp only [applyLabel, doAddJob, Option.some.injEq] at h
    subst h
    refine ⟨hlen, ?_, hex, herr⟩
    simp only [List.map_append, List.map_cons, List.map_nil, ← List.append_assoc, hfifo]
  | tryDequeue w =>
    simp only [applyLabel, doTryDequeue] at h
    split at h
    case h_2 => exact absurd h (by simp)
    case h_1 hw =>
      split at h
      case isTrue hstop =>
        simp only [Option.some.injEq] at h
        subst h
        refine ⟨by simpa using hlen, hfifo, ?_, herr⟩
        intro st hst _
        exact hstop
      case isFalse hstop =>
        split at h
        case isTrue hp =>
          split at h
          case isTrue => exact absurd h (by simp)
          case isFalse =>
            simp only [Option.some.injEq] at h
            subst h
            exact ⟨hlen, hfifo, hex, herr⟩
        case isFalse hp =>
          split at h
          case h_1 hq =>
            simp only [Option.some.injEq] at h
            subst h
            exact ⟨hlen, hfifo, hex, herr⟩
          case h_2 j rest hq =>
            simp only [Option.some.injEq] at h
            subst h
            refine ⟨by simpa using hlen, ?_, ?_, herr⟩
            · rw [← hfifo, hq]
              simp [List.append_assoc]
            · intro st hst hexd
              rcases List.mem_or_eq_of_mem_set hst with hmem | hrfl
              · exact hex st hmem hexd
              · rw [hrfl] at hexd
                cases hexd
  | startJob w =>
    simp only [applyLabel, doStartJob] at h
    split at h
    case h_2 => exact absurd h (by simp)
    case h_1 j hw =>
      simp only [Option.some.injEq] at h
      subst h
      refine ⟨by simpa using hlen, hfifo, ?_, herr⟩
      intro st hst hexd
      rcases List.mem_or_eq_of_mem_set hst with hmem | hrfl
      · exact hex st hmem hexd
      · rw [hrfl] at hexd
        cases hexd
  | finishJob w =>
    simp only [applyLabel, doFinishJob] at h
    split at h
    case h_2 => exact absurd h (by simp)
    case h_1 j hw =>
      simp only [Option.some.injEq] at h
      subst h
      refine ⟨by simpa using hlen, hfifo, ?_, ?_⟩
      · intro st hst hexd
        rcases List.mem_or_eq_of_mem_set hst with hmem | hrfl
        · exact hex st hmem hexd
        · rw [hrfl] at hexd
          cases hexd
      · by_cases ht : j.throws
        · simp [ht, List.getLast?_concat]
        · simp [ht, herr]
  | pause =>
    simp only [applyLabel, Option.some.injEq] at h
    subst h
    exact ⟨hlen, hfifo, hex, herr⟩
  | resume =>
    simp only [applyLabel, Option.some.injEq] at h
    subst h
    exact ⟨hlen, hfifo, hex, herr⟩
  | setStop =>
    simp only [applyLabel, Option.some.injEq] at h
    subst h
    exact ⟨hlen, hfifo, fun st hst _ => rfl, herr⟩

theorem reachable_inv {k : Nat} {s : PoolState} (h : Reachable k s) : Inv k s := by
  induction h with
  | refl => exact init_inv k
  | tail _ hstep ih =>
    obtain ⟨l, hl⟩ := hstep
    exact applyLabel_inv ih hl

theorem runTrace_steps :
    ∀ (ls : List Label) (s t : PoolState), runTrace ls s = some t → Steps s t := by
  intro ls
  induction ls with
  | nil =>
    intro s t h
    simp only [runTrace, Option.some.injEq] at h
    subst h
    exact Relation.ReflTransGen.refl
  | cons l rest ih =>
    intro s t h
    simp only [runTrace] at h
    split at h
    case h_1 u hu => exact Relation.ReflTransGen.head ⟨l, hu⟩ (ih u t h)
    case h_2 => cases h

theorem applyLabel_stopped_frozen {s t : PoolState} {l : Label}
    (h : applyLabel s l = some t) (hs : s.stop = true) :
    t.stop = true ∧ t.dequeuedIds = s.dequeuedIds ∧ s.queue <+: t.queue := by
  cases l with
  | addJob j =>
    simp only [applyLabel, doAddJob, Option.some.injEq] at h
    subst h
    exact ⟨hs, rfl, ⟨[j], rfl⟩⟩
  | tryDequeue w =>
    simp only [applyLabel, doTryDequeue] at h
    split at h
    case h_2 => exact absurd h (by simp)
    case h_1 hw =>
      rw [if_pos hs] at h
      simp only [Option.some.injEq] at h
      subst h
      exact ⟨hs, rfl, ⟨[], List.append_nil _⟩⟩
  | startJob w =>
    simp only [applyLabel, doStartJob] at h
    split at h
    case h_2 => exact absurd h (by simp)
    case h_1 j hw =>
      simp only [Option.some.injEq] at h
      subst h
      exact ⟨hs, rfl, ⟨[], List.append_nil _⟩⟩
  | finishJob w =>
    simp only [applyLabel, doFinishJob] at h
    split at h
    case h_2 => exact absurd h (by simp)
    case h_1 j hw =>
      simp only [Option.some.injEq] at h
      subst h
      exact ⟨hs, rfl, ⟨[], List.append_nil _⟩⟩
  | pause =>
    simp only [applyLabel, Option.some.injEq] at h
    subst h
    exact ⟨hs, rfl, ⟨[], List.append_nil _⟩⟩
  | resume =>
    simp only [applyLabel, Option.some.injEq] at h
    subst h
    exact ⟨hs, rfl, ⟨[], List.append_nil _⟩⟩
  | setStop =>
    simp only [applyLabel, Option.some.injEq] at h
    subst h
    exact ⟨rfl, rfl, ⟨[], List.append_nil _⟩⟩

theorem steps_stopped_frozen {s t : PoolState} (hs : s.stop = true) (h : Steps s t) :
    t.stop = true ∧ t.dequeuedIds = s.dequeuedIds ∧ s.queue <+: t.queue := by
  induction h with
  | refl => exact ⟨hs, rfl, ⟨[], List.append_nil _⟩⟩
  | tail _ hstep ih =>
    obtain ⟨hstop, hdeq, hq⟩ := ih
    obtain ⟨l, hl⟩ := hstep
    obtain ⟨hstop2, hdeq2, hq2⟩ := applyLabel_stopped_frozen hl hstop
    exact ⟨hstop2, hdeq2.trans hdeq, hq.trans hq2⟩

theorem applyLabel_lastError_some {s t : PoolState} {l : Label} {e : Nat}
    (h : applyLabel s l = some t) (he : s.lastError = some e) :
    ∃ e2, t.lastError = some e2 := by
  cases l with
  | addJob j =>
    simp only [applyLabel, doAddJob, Option.some.injEq] at h
    subst h
    exact ⟨e, he⟩
  | tryDequeue w =>
    simp only [applyLabel, doTryDequeue] at h
    split at h
    case h_2 => exact absurd h (by simp)
    case h_1 hw =>
      split at h
      case isTrue =>
        simp only [Option.some.injEq] at h
        subst h
        exact ⟨e, he⟩
      case isFalse =>
        split at h
        case isTrue =>
          split at h
          case isTrue => exact absurd h (by simp)
          case isFalse =>
            simp only [Option.some.injEq] at h
            subst h
            exact ⟨e, he⟩
        case isFalse =>
          split at h
          case h_1 =>
            simp only [Option.some.injEq] at h
            subst h
            exact ⟨e, he⟩
          case h_2 j rest hq =>
            simp only [Option.some.injEq] at h
            subst h
            exact ⟨e, he⟩
  | startJob w =>
    simp only [applyLabel, doStartJob] at h
    split at h
    case h_2 => exact absurd h (by simp)
    case h_1 j hw =>
      simp only [Option.some.injEq] at h
      subst h
      exact ⟨e, he⟩
  | finishJob w =>
    simp only [applyLabel, doFinishJob] at h
    split at h
    case h_2 => exact absurd h (by simp)
    case h_1 j hw =>
      simp only [Option.some.injEq] at h
      subst h
      by_cases ht : j.throws
      · exact ⟨j.id, by simp [ht]⟩
      · exact ⟨e, by simp [ht, he]⟩
  | pause =>
    simp only [applyLabel, Option.some.injEq] at h
    subst h
    exact ⟨e, he⟩
  | resume =>
    simp only [applyLabel, Option.some.injEq] at h
    subst h
    exact ⟨e, he⟩
  | setStop =>
    simp only [applyLabel, Option.some.injEq] at h
    subst h
    exact ⟨e, he⟩

theorem steps_lastError_some {s t : PoolState} {e : Nat}
    (he : s.lastError = some e) (h : Steps s t) :
    ∃ e2, t.lastError = some e2 := by
  induction h with
  | refl => exact ⟨e, he⟩
  | tail _ hstep ih =>
    obtain ⟨e2, he2⟩ := ih
    obtain ⟨l, hl⟩ := hstep
    exact applyLabel_lastError_some hl he2

theorem sum_map_set_lt (l : List WorkerState) (i : Nat) (a b : WorkerState)
    (hi : l[i]? = some a) (hw : wWeight b < wWeight a) :
    ((l.set i b).map wWeight).sum < (l.map wWeight).sum := by
  induction l generalizing i with
  | nil => simp at hi
  | cons c rest ih =>
    cases i with
    | zero =>
      simp only [List.getElem?_cons_zero, Option.some.injEq] at hi
      subst hi
      simp only [List.set_cons_zero, List.map_cons, List.sum_cons]
      exact Nat.add_lt_add_right hw _
    | succ i =>
      simp only [List.getElem?_cons_succ] at hi
      simp only [List.set_cons_succ, List.map_cons, List.sum_cons]
      exact Nat.add_lt_add_left (ih i hi) _

theorem stopped_progress (s : PoolState) (hs : s.stop = true) (hne : ¬ allExited s) :
    ∃ t, stepRel s t ∧ t.stop = true ∧ weight t < weight s := by
  simp only [allExited, not_forall] at hne
  obtain ⟨st, hmem, hst⟩ := hne
  obtain ⟨i, hi⟩ := List.mem_iff_getElem?.mp hmem
  cases hcase : st with
  | exited => exact absurd hcase hst
  | idle =>
    subst hcase
    refine ⟨{ s with workers := s.workers.set i WorkerState.exited },
      ⟨Label.tryDequeue i, ?_⟩, hs, ?_⟩
    · simp [applyLabel, doTryDequeue, hi, hs]
    · show ((s.workers.set i WorkerState.exited).map wWeight).sum
        < (s.workers.map wWeight).sum
      exact sum_map_set_lt _ i _ WorkerState.exited hi (by simp [wWeight])
  | dequeued j =>
    subst hcase
    refine ⟨{ s with workers := s.workers.set i (WorkerState.running j), active := s.active + 1 },
      ⟨Label.startJob i, ?_⟩, hs, ?_⟩
    · simp [applyLabel, doStartJob, hi]
    · show ((s.workers.set i (WorkerState.running j)).map wWeight).sum
        < (s.workers.map wWeight).sum
      exact sum_map_set_lt _ i _ (WorkerState.running j) hi (by simp [wWeight])
  | running j =>
    subst hcase
    refine ⟨{ s with workers := s.workers.set i WorkerState.idle, active := s.active - 1, finishedIds := s.finishedIds ++ [j.id], lastError := if j.throws then some j.id else s.lastError, failures := if j.throws then s.failures ++ [j.id] else s.failures },
      ⟨Label.finishJob i, ?_⟩, hs, ?_⟩
    · simp [applyLabel, doFinishJob, hi]
    · show ((s.workers.set i WorkerState.idle).map wWeight).sum
        < (s.workers.map wWeight).sum
      exact sum_map_set_lt _ i _ WorkerState.idle hi (by simp [wWeight])

theorem stopped_drains_aux :
    ∀ (n : Nat) (s : PoolState), weight s ≤ n → s.stop = true →
      ∃ t, Steps s t ∧ teardownComplete t := by
  intro n
  induction n with
  | zero =>
    intro s hw hs
    refine ⟨s, Relation.ReflTransGen.refl, hs, ?_⟩
    intro st hmem
    have hz : wWeight st = 0 := by
      have hsum : (s.workers.map wWeight).sum = 0 := Nat.le_zero.mp hw
      exact List.sum_eq_zero_iff.mp hsum _ (List.mem_map_of_mem wWeight hmem)
    cases st <;> simp [wWeight] at hz ⊢
  | succ n ih =>
    intro s hw hs
    by_cases hall : allExited s
    · exact ⟨s, Relation.ReflTransGen.refl, hs, hall⟩
    · obtain ⟨t, hstep, hts, hlt⟩ := stopped_progress s hs hall
      obtain ⟨u, hsteps, hu⟩ := ih t (Nat.le_of_lt_succ (lt_of_lt_of_le hlt hw)) hts
      exact ⟨u, Relation.ReflTransGen.head hstep hsteps, hu⟩

theorem stopped_drains (s : PoolState) (hs : s.stop = true) :
    ∃ t, Steps s t ∧ teardownComplete t :=
  stopped_drains_aux (weight s) s (Nat.le_refl _) hs

/-- Claim C1.  The claim states that when `WaitForAllJobs` returns
without raising, every job submitted before the call has executed
exactly once.  The code violates this: because `active_jobs_++` runs
only after the queue mutex has been released, the schedule
`dequeueWindowTrace` (2 workers, jobs 0 and 1 submitted up front;
worker 0 runs job 0 to completion and its `notify_all` wakes the
waiter while worker 1 has popped job 1 but not yet incremented
`active_jobs_`) reaches a state where the wait predicate
`jobs_.empty() && active_jobs_ == 0` holds and `last_exception_` is
empty — so `WaitForAllJobs` returns normally — although submitted job 1
has not executed (`finishedIds = [0]`, and worker 1 still holds job 1
undone). -/
theorem C1_wait_returns_with_unexecuted_job :
    (runTrace dequeueWindowTrace (init 2)).map
        (fun s => (decide (drained s), waitOutcome s, s.enqueuedIds, s.finishedIds,
          s.workers[1]?)) =
      some (true, none, [0, 1], [0], some (WorkerState.dequeued j1)) := by
  decide

/-- Claim C2.  The claim states that a job dequeued but not yet
finished is always counted as outstanding, so the drained predicate
`queue empty ∧ active_count = 0` never holds while such a job exists.
In the code the increment of `active_jobs_` happens after the lock is
released, so in the final state of `dequeueWindowTrace` the drained
predicate holds (`active = 0`, queue empty) while worker 1 holds
dequeued, unfinished job 1 — a thread blocked in `WaitForAllJobs` can
unblock in exactly that state. -/
theorem C2_drained_holds_with_dequeued_unfinished_job :
    (runTrace dequeueWindowTrace (init 2)).map
        (fun s => (decide (drained s), s.active, s.workers[1]?,
          decide (j1.id ∈ s.finishedIds))) =
      some (true, 0, some (WorkerState.dequeued j1), false) := by
  decide

/-- Claim C3: for a pool constructed with `k` workers, in every
reachable state the number of jobs simultaneously held by a worker
(dequeued and executing) never exceeds `k`: each of the `k` threads
spawned by the constructor holds at most one job, and the thread count
never changes after construction. -/
theorem C3_concurrency_bound (k : Nat) (s : PoolState) (hr : Reachable k s) :
    heldCount s ≤ k := by
  have hlen := (reachable_inv hr).1
  calc heldCount s ≤ s.workers.length := List.length_filter_le _ _
  _ = k := hlen

/-- Witness for C3 at a concrete reachable state of a 1-worker pool
with one job executing. -/
theorem C3_concurrency_bound_witness :
    Reachable 1 heldWitnessState ∧ heldCount heldWitnessState ≤ 1 := by
  have hr : Reachable 1 heldWitnessState :=
    runTrace_steps runningFailTrace (init 1) heldWitnessState (by decide)
  exact ⟨hr, C3_concurrency_bound 1 heldWitnessState hr⟩

/-- Claim C4, counterexample.  The claim states that after `Pause()`
and while the pause flag remains set, no new job begins execution.  The
worker checks `paused_` inside the locked region but increments
`active_jobs_` and calls `job()` after releasing the lock, and
`Pause()` takes no lock, so `paused_.store(true)` can land between the
pop and the start: from the state reached by `pauseWindowTrace`
(job popped, then `Pause()`), the `startJob` transition is enabled and
moves job 0 into execution while `paused` is (and stays) `true`,
refuting the claim as stated. -/
theorem C4_job_starts_while_paused :
    ((runTrace pauseWindowTrace (init 1)).bind
        (fun s => (applyLabel s (Label.startJob 0)).map
          (fun t => (s.paused, s.workers[0]?, t.paused, t.workers[0]?, t.active)))) =
      some (true, some (WorkerState.dequeued j0), true, some (WorkerState.running j0), 1) := by
  decide

/-- Claim C4 as amended: while the pause flag is set a worker never
dequeues a job (its pass through the locked region leaves the pool
state unchanged) — only a job already popped before the pause landed
may still begin execution; a concurrent `AddJob` still enqueues
successfully; and after `Resume()` the queued front job is dequeued
again. -/
theorem C4_pause_gates_dequeue (s : PoolState) (w : Nat) (j : Job) (rest : List Job)
    (hw : s.workers[w]? = some WorkerState.idle) (hq : s.queue = j :: rest)
    (hstop : s.stop = false) :
    (s.paused = true → applyLabel s (Label.tryDequeue w) = some s) ∧
    (applyLabel s (Label.addJob j) =
      some { s with queue := s.queue ++ [j], enqueuedIds := s.enqueuedIds ++ [j.id] }) ∧
    (∃ s1 s2, applyLabel s Label.resume = some s1 ∧
      applyLabel s1 (Label.tryDequeue w) = some s2 ∧
      s2.dequeuedIds = s.dequeuedIds ++ [j.id] ∧
      s2.workers[w]? = some (WorkerState.dequeued j) ∧ s2.queue = rest) := by
  have hwlt : w < s.workers.length := by
    by_contra hge
    rw [List.getElem?_eq_none (Nat.le_of_not_lt hge)] at hw
    cases hw
  refine ⟨?_, rfl, ?_⟩
  · intro hp
    simp [applyLabel, doTryDequeue, hw, hstop, hp, hq]
  · refine ⟨{ s with paused := false },
      { s with paused := false, workers := s.workers.set w (WorkerState.dequeued j), queue := rest, dequeuedIds := s.dequeuedIds ++ [j.id] },
      rfl, ?_, rfl, ?_, rfl⟩
    · simp [applyLabel, doTryDequeue, hw, hstop, hq]
    · simp [List.getElem?_set_self hwlt]

/-- Witness for the amended C4 at the concrete paused 1-worker pool
with job 0 queued. -/
theorem C4_pause_gates_dequeue_witness :
    (pausedQueueState.workers[0]? = some WorkerState.idle ∧
      pausedQueueState.queue = j0 :: [] ∧ pausedQueueState.stop = false ∧
      pausedQueueState.paused = true) ∧
    ((pausedQueueState.paused = true →
        applyLabel pausedQueueState (Label.tryDequeue 0) = some pausedQueueState) ∧
      (applyLabel pausedQueueState (Label.addJob j0) =
        some { pausedQueueState with queue := pausedQueueState.queue ++ [j0], enqueuedIds := pausedQueueState.enqueuedIds ++ [j0.id] }) ∧
      (∃ s1 s2, applyLabel pausedQueueState Label.resume = some s1 ∧
        applyLabel s1 (Label.tryDequeue 0) = some s2 ∧
        s2.dequeuedIds = pausedQueueState.dequeuedIds ++ [j0.id] ∧
        s2.workers[0]? = some (WorkerState.dequeued j0) ∧ s2.queue = [])) :=
  ⟨⟨by decide, by decide, by decide, by decide⟩,
    C4_pause_gates_dequeue pausedQueueState 0 j0 [] (by decide) (by decide) (by decide)⟩

/-- Claim C5: if a job's body throws, the worker catches the exception
at the loop boundary and survives: in any reachable state no worker has
exited unless the stop flag is set (so no worker ever terminates
because a job failed), and finishing a throwing job leaves that worker
idle (back in its loop) with the failure recorded as `last_exception_`.
The closing conjunct runs a throwing job followed by a normal job on a
1-worker pool: both execute (`finishedIds = [0, 1]`), the worker is
back to idle, and the recorded failure is surfaced. -/
theorem C5_worker_survives_job_failure (k : Nat) (s : PoolState) (w : Nat) (j : Job)
    (hr : Reachable k s) (hw : s.workers[w]? = some (WorkerState.running j))
    (ht : j.throws = true) :
    (∀ st ∈ s.workers, st = WorkerState.exited → s.stop = true) ∧
    (∃ t, applyLabel s (Label.finishJob w) = some t ∧
      t.workers[w]? = some WorkerState.idle ∧
      t.lastError = some j.id ∧
      t.failures = s.failures ++ [j.id] ∧
      t.stop = s.stop ∧
      (∀ st ∈ t.workers, st = WorkerState.exited → t.stop = true)) ∧
    (runTrace failIsolationTrace (init 1)).map
        (fun u => (u.finishedIds, u.workers, waitOutcome u)) =
      some ([0, 1], [WorkerState.idle], some 0) := by
  have hex := (reachable_inv hr).2.2.1
  have hwlt : w < s.workers.length := by
    by_contra hge
    rw [List.getElem?_eq_none (Nat.le_of_not_lt hge)] at hw
    cases hw
  refine ⟨hex, ⟨{ s with workers := s.workers.set w WorkerState.idle, active := s.active - 1, finishedIds := s.finishedIds ++ [j.id], lastError := some j.id, failures := s.failures ++ [j.id] }, ?_, ?_, rfl, rfl, rfl, ?_⟩, by decide⟩
  · simp [applyLabel, doFinishJob, hw, ht]
  · simp [List.getElem?_set_self hwlt]
  · intro st hst hexd
    rcases List.mem_or_eq_of_mem_set hst with hmem | hrfl
    · exact hex st hmem hexd
    · rw [hrfl] at hexd
      cases hexd

/-- Witness for C5 at the concrete reachable 1-worker pool state whose
worker is executing the throwing job `f0`. -/
theorem C5_worker_survives_job_failure_witness :
    (Reachable 1 heldWitnessState ∧
      heldWitnessState.workers[0]? = some (WorkerState.running f0) ∧
      f0.throws = true) ∧
    ((∀ st ∈ heldWitnessState.workers, st = WorkerState.exited →
        heldWitnessState.stop = true) ∧
      (∃ t, applyLabel heldWitnessState (Label.finishJob 0) = some t ∧
        t.workers[0]? = some WorkerState.idle ∧
        t.lastError = some f0.id ∧
        t.failures = heldWitnessState.failures ++ [f0.id] ∧
        t.stop = heldWitnessState.stop ∧
        (∀ st ∈ t.workers, st = WorkerState.exited → t.stop = true)) ∧
      (runTrace failIsolationTrace (init 1)).map
          (fun u => (u.finishedIds, u.workers, waitOutcome u)) =
        some ([0, 1], [WorkerState.idle], some 0)) := by
  have hr : Reachable 1 heldWitnessState :=
    runTrace_steps runningFailTrace (init 1) heldWitnessState (by decide)
  exact ⟨⟨hr, by decide, by decide⟩,
    C5_worker_survives_job_failure 1 heldWitnessState 0 f0 hr (by decide) (by decide)⟩

/-- Claim C6: when `WaitForAllJobs` unblocks on the drained predicate,
what it re-raises to its caller is exactly the most recently recorded
job failure (`last_exception_` always equals the last entry of the
failure history), and when no failure has been recorded the call
returns normally. -/
theorem C6_wait_surfaces_most_recent_failure (k : Nat) (s : PoolState)
    (hr : Reachable k s) (_hd : drained s) :
    waitOutcome s = s.failures.getLast? ∧
    (s.failures = [] → waitOutcome s = none) := by
  have herr := (reachable_inv hr).2.2.2
  refine ⟨herr, fun hf => ?_⟩
  rw [waitOutcome, herr, hf]
  rfl

/-- Witness for C6 at the drained 1-worker pool state whose single
(throwing) job has completed. -/
theorem C6_wait_surfaces_most_recent_failure_witness :
    (Reachable 1 failDrainState ∧ drained failDrainState) ∧
    (waitOutcome failDrainState = failDrainState.failures.getLast? ∧
      (failDrainState.failures = [] → waitOutcome failDrainState = none)) := by
  have hr : Reachable 1 failDrainState :=
    runTrace_steps failDrainTrace (init 1) failDrainState (by decide)
  exact ⟨⟨hr, by decide⟩,
    C6_wait_surfaces_most_recent_failure 1 failDrainState hr (by decide)⟩

/-- Claim C7: once the destructor has stored the stop flag, it stays
set, no worker dequeues another job (the dequeue history is frozen),
jobs queued at that moment stay at the front of the queue — hence are
never executed — and from any such state every worker can run to the
exit of its loop, after which the destructor's joins all return
(`teardownComplete`), so teardown does not block indefinitely. -/
theorem C7_teardown_abandons_queued_jobs (s t : PoolState)
    (hstop : s.stop = true) (hs : Steps s t) :
    t.stop = true ∧ t.dequeuedIds = s.dequeuedIds ∧ s.queue <+: t.queue ∧
    ∃ u, Steps t u ∧ teardownComplete u := by
  obtain ⟨h1, h2, h3⟩ := steps_stopped_frozen hstop hs
  exact ⟨h1, h2, h3, stopped_drains t h1⟩

/-- Witness for C7 at the concrete teardown-time state with job 0
still queued. -/
theorem C7_teardown_abandons_queued_jobs_witness :
    (stoppedState.stop = true) ∧
    (stoppedState.stop = true ∧ stoppedState.dequeuedIds = stoppedState.dequeuedIds ∧
      stoppedState.queue <+: stoppedState.queue ∧
      ∃ u, Steps stoppedState u ∧ teardownComplete u) :=
  ⟨by decide,
    C7_teardown_abandons_queued_jobs stoppedState stoppedState (by decide)
      Relation.ReflTransGen.refl⟩

/-- Claim C8: in every reachable state the dequeue history followed by
the ids still queued equals the enqueue history, so jobs are dequeued
in exactly FIFO submission order; the closing conjunct shows a 2-worker
schedule whose dequeue order is `[0, 1]` while the completion order is
`[1, 0]`. -/
theorem C8_fifo_dequeue_order (k : Nat) (s : PoolState) (hr : Reachable k s) :
    s.dequeuedIds ++ s.queue.map Job.id = s.enqueuedIds ∧
    (runTrace completionInversionTrace (init 2)).map
        (fun t => (t.dequeuedIds, t.finishedIds)) = some ([0, 1], [1, 0]) :=
  ⟨(reachable_inv hr).2.1, by decide⟩

/-- Witness for C8 at the concrete reachable 2-worker state with job 0
dequeued and job 1 still queued. -/
theorem C8_fifo_dequeue_order_witness :
    (Reachable 2 fifoWitnessState) ∧
    (fifoWitnessState.dequeuedIds ++ fifoWitnessState.queue.map Job.id =
        fifoWitnessState.enqueuedIds ∧
      (runTrace completionInversionTrace (init 2)).map
          (fun t => (t.dequeuedIds, t.finishedIds)) = some ([0, 1], [1, 0])) := by
  have hr : Reachable 2 fifoWitnessState :=
    runTrace_steps fifoWitnessTrace (init 2) fifoWitnessState (by decide)
  exact ⟨hr, C8_fifo_dequeue_order 2 fifoWitnessState hr⟩

/-- Claim C10: `WaitForAllJobs` never clears `last_exception_`; once
some job has failed, every later state still stores a failure and every
subsequent `WaitForAllJobs` call re-raises it.  The closing conjunct
runs two submit/drain cycles on a 1-worker pool — the first cycle's job
throws, the second cycle's job succeeds — and at the drained end of the
second cycle `WaitForAllJobs` still re-raises the failure of job 0. -/
theorem C10_last_error_never_cleared (s t : PoolState) (e : Nat)
    (he : s.lastError = some e) (hs : Steps s t) :
    (∃ e2, waitOutcome t = some e2) ∧
    (runTrace twoCycleTrace (init 1)).map
        (fun u => (waitOutcome u, u.finishedIds, decide (drained u))) =
      some (some 0, [0, 1], true) :=
  ⟨steps_lastError_some he hs, by decide⟩

/-- Witness for C10 at the drained post-failure state. -/
theorem C10_last_error_never_cleared_witness :
    (failDrainState.lastError = some 0) ∧
    ((∃ e2, waitOutcome failDrainState = some e2) ∧
      (runTrace twoCycleTrace (init 1)).map
          (fun u => (waitOutcome u, u.finishedIds, decide (drained u))) =
        some (some 0, [0, 1], true)) :=
  ⟨by decide,
    C10_last_error_never_cleared failDrainState failDrainState 0 (by decide)
      Relation.ReflTransGen.refl⟩

/-- Claim C9: for every hostname and every behaviour of the underlying
OS resolver, `DnsResolver::resolve` yields exactly one of three
outcomes through its future: the first resolved address string, the
literal sentinel `"No results"`, or `"Error: "` followed by the
diagnostic of the caught `system_error`; the function is total, so no
exception escapes through the handle. -/
theorem C9_resolve_three_way_outcome (osResolve : String → OsResolveResult)
    (hostname : String) :
    (∃ a rest, osResolve hostname = OsResolveResult.ok (a :: rest) ∧
      dnsResolve osResolve hostname = a) ∨
    dnsResolve osResolve hostname = "No results" ∨
    (∃ e, osResolve hostname = OsResolveResult.err e ∧
      dnsResolve osResolve hostname = "Error: " ++ e) := by
  cases h : osResolve hostname with
  | ok addrs =>
    cases addrs with
    | nil =>
      right; left
      simp [dnsResolve, h]
    | cons a rest =>
      left
      exact ⟨a, rest, rfl, by simp [dnsResolve, h]⟩
  | err e =>
    right; right
    exact ⟨e, rfl, by simp [dnsResolve, h]⟩

/-- Witness for C9 at a concrete resolver behaviour and hostname. -/
theorem C9_resolve_three_way_outcome_witness :
    (∃ a rest, errResolver "example.invalid" = OsResolveResult.ok (a :: rest) ∧
      dnsResolve errResolver "example.invalid" = a) ∨
    dnsResolve errResolver "example.invalid" = "No results" ∨
    (∃ e, errResolver "example.invalid" = OsResolveResult.err e ∧
      dnsResolve errResolver "example.invalid" = "Error: " ++ e) :=
  C9_resolve_three_way_outcome errResolver "example.invalid"

end JobPoolModel
